import Mathlib

/-!
Verification of the sweep signal-generator core: a shallow embedding of the
waveform generators (js/generators/sweep.js, js/generators/mls.js,
js/generators/stepped-sine.js), the post-processing utilities (js/utils.js),
the worker channel construction (js/worker.js) and the WAV container encoder
(js/audio/wav-encoder.js), together with theorems settling the specification
claims about them.

Samples are modelled as real numbers (`Float64` idealized as `ℝ`); the
decimation utility, which only compares and copies values, is modelled over
`ℚ` so that concrete runs are kernel-computable.  JavaScript `Math.round`
(round half toward positive infinity) is modelled by `jsRound`.
-/

namespace Sweep


/-- Rounding as JavaScript's Math.round performs it: floor of x + 1/2,
so ties round toward positive infinity. -/
noncomputable def jsRound (x : ℝ) : ℤ := ⌊x + 1 / 2⌋

/-! ## 16-bit PCM sample encoding (wav-encoder.js, writeSampleData, 16-bit branch)

The source clamps the sample to [-1, 1], scales by 32767 and rounds:
`const clamped = Math.max(-1, Math.min(1, sample)); Math.round(clamped * 32767)`. -/

/-- Clamp a sample to [-1, 1] exactly as `Math.max(-1, Math.min(1, sample))`. -/
noncomputable def clampSample (s : ℝ) : ℝ := max (-1) (min 1 s)

/-- Integer value written by the 16-bit PCM branch of writeSampleData. -/
noncomputable def pcm16Value (s : ℝ) : ℤ := jsRound (clampSample s * 32767)

/-! ## WAV container layout arithmetic (wav-encoder.js, encodeWAV)

The encoder's byte layout is fully determined by the bit depth, the format
string, the channel count, the frame count, and — when BWF metadata is
present — the byte length of the codingHistory text (the bext payload is a
602-byte fixed part followed by the codingHistory bytes).  The definitions
below transcribe the size computations of `encodeWAV` and, separately, the
offset advancement performed by the actual writes, so the two can be
compared.  Metadata is represented by `Option ℕ`: `none` for no bwfMetadata,
`some ch` for metadata whose encoded codingHistory occupies `ch` bytes. -/

/-- Source: `const isFloat = (bitDepth === 32 && format === 'float')`.
`fmtFloat` is the truth of `format === 'float'`. -/
def isFloatWav (bitDepth : ℕ) (fmtFloat : Bool) : Bool :=
  bitDepth == 32 && fmtFloat

/-- Source: `const isExtensible = (bitDepth === 24 || bitDepth === 32)`. -/
def isExtensibleWav (bitDepth : ℕ) : Bool :=
  bitDepth == 24 || bitDepth == 32

/-- Size of the buffer built by encodeBextPayload: 602 fixed bytes plus the
codingHistory bytes. -/
def bextPayloadSize (chLen : ℕ) : ℕ := 602 + chLen

/-- Source: `bextChunkSize = 8 + bextPayload.byteLength` plus one pad byte
when the payload length is odd; 0 when no metadata is requested. -/
def bextChunkSize (meta : Option ℕ) : ℕ :=
  match meta with
  | none => 0
  | some ch => 8 + bextPayloadSize ch + (if bextPayloadSize ch % 2 ≠ 0 then 1 else 0)

/-- Source: `const fmtPayloadSize = isExtensible ? 40 : 16`. -/
def fmtPayloadSize (bitDepth : ℕ) : ℕ :=
  if isExtensibleWav bitDepth then 40 else 16

/-- Source: `const fmtChunkSize = 8 + fmtPayloadSize`. -/
def fmtChunkSize (bitDepth : ℕ) : ℕ := 8 + fmtPayloadSize bitDepth

/-- Source: `const needsFact = isExtensible || isFloat`. -/
def needsFact (bitDepth : ℕ) (fmtFloat : Bool) : Bool :=
  isExtensibleWav bitDepth || isFloatWav bitDepth fmtFloat

/-- Source: `const factChunkSize = needsFact ? 12 : 0`. -/
def factChunkSize (bitDepth : ℕ) (fmtFloat : Bool) : ℕ :=
  if needsFact bitDepth fmtFloat then 12 else 0

/-- Source: `blockAlign = bytesPerSample * numChannels` with
`bytesPerSample = bitDepth / 8`. -/
def blockAlign (bitDepth numChannels : ℕ) : ℕ := bitDepth / 8 * numChannels

/-- Source: `const dataSize = totalFrames * blockAlign`; this is the value
written into the data chunk's size field. -/
def wavDataSize (bitDepth numChannels totalFrames : ℕ) : ℕ :=
  totalFrames * blockAlign bitDepth numChannels

/-- Source: `riffPayloadSize = 4 + bextChunkSize + fmtChunkSize +
factChunkSize + dataChunkSize` with `dataChunkSize = 8 + dataSize`; this is
the value written into the RIFF size field. -/
def riffPayloadSize (bitDepth : ℕ) (fmtFloat : Bool)
    (numChannels totalFrames : ℕ) (meta : Option ℕ) : ℕ :=
  4 + bextChunkSize meta + fmtChunkSize bitDepth + factChunkSize bitDepth fmtFloat +
    (8 + wavDataSize bitDepth numChannels totalFrames)

/-- Source: `const fileSize = 8 + riffPayloadSize`; the byte length of the
ArrayBuffer allocated and returned by encodeWAV. -/
def wavFileSize (bitDepth : ℕ) (fmtFloat : Bool)
    (numChannels totalFrames : ℕ) (meta : Option ℕ) : ℕ :=
  8 + riffPayloadSize bitDepth fmtFloat numChannels totalFrames meta

/-- Bytes advanced per sample value by writeSampleData: 2 in the 16-bit
branch, 3 in the 24-bit branch, 4 in the 32-bit float branch, and 0 when no
branch matches. -/
def sampleValueBytes (bitDepth : ℕ) (fmtFloat : Bool) : ℕ :=
  if bitDepth = 16 then 2
  else if bitDepth = 24 then 3
  else if bitDepth = 32 ∧ isFloatWav bitDepth fmtFloat = true then 4
  else 0

/-- Bytes written for the fmt chunk payload, following the write sequence of
encodeWAV: six fixed fields (2+2+4+4+2+2 bytes), then, for extensible
formats, cbSize, wValidBitsPerSample, dwChannelMask and the 16-byte
SubFormat GUID (2+2+4+4+2+2+8 bytes). -/
def fmtPayloadBytesWritten (isExt : Bool) : ℕ :=
  2 + 2 + 4 + 4 + 2 + 2 + (if isExt then 2 + 2 + 4 + (4 + 2 + 2 + 8) else 0)

/-- Total bytes traversed by the write sequence of encodeWAV: 12 for the
RIFF header, the bext chunk header, payload and pad byte when metadata is
present, 8 plus the fmt payload, 12 for the fact chunk when needed, 8 for
the data chunk header, and the interleaved sample bytes. -/
def wavBytesWritten (bitDepth : ℕ) (fmtFloat : Bool)
    (numChannels totalFrames : ℕ) (meta : Option ℕ) : ℕ :=
  12 +
  (match meta with
   | none => 0
   | some ch =>
       8 + bextPayloadSize ch + (if bextPayloadSize ch % 2 ≠ 0 then 1 else 0)) +
  (8 + fmtPayloadBytesWritten (isExtensibleWav bitDepth)) +
  (if needsFact bitDepth fmtFloat then 12 else 0) +
  (8 + totalFrames * numChannels * sampleValueBytes bitDepth fmtFloat)

/-! ## Exponential sweep generator (sweep.js, generateExponentialSweep)

Source: `N = Math.round(sampleRate * T)`; for each `i < N`,
`t = i / sampleRate; exponent = t / T * lnRatio;
phase = 2π·f1·T/lnRatio · (exp(exponent) − 1); samples[i] = sin(phase)`
with `lnRatio = ln(f2 / f1)`. -/

/-- Sample count of the exponential sweep: `Math.round(sampleRate * duration)`. -/
noncomputable def essLength (sampleRate duration : ℝ) : ℕ :=
  (jsRound (sampleRate * duration)).toNat

/-- Exponential (Farina) sine sweep samples, as a list of length `essLength`. -/
noncomputable def generateExponentialSweep
    (startFreq endFreq sampleRate duration : ℝ) : List ℝ :=
  (List.range (essLength sampleRate duration)).map fun (i : ℕ) =>
    Real.sin (2 * Real.pi * startFreq * duration / Real.log (endFreq / startFreq) *
      (Real.exp ((i : ℝ) / sampleRate / duration * Real.log (endFreq / startFreq)) - 1))

/-! ## Maximum Length Sequence generator (mls.js, generateMLS)

Source: a tap table keyed by order 10..18; all-ones initial register; per
step the output is the register's LSB, the feedback is the XOR of the tap
bits, and the register shifts right with the feedback inserted at the MSB.
A missing table entry makes the source throw
`Unsupported MLS order: ...`, modelled here by `Option.none`. -/

/-- Tap table MLS_TAPS of mls.js, as a lookup returning `none` for orders
with no entry (the orders the source rejects by throwing). -/
def MLS_TAPS (order : ℕ) : Option (List ℕ) :=
  if order = 10 then some [10, 7]
  else if order = 11 then some [11, 9]
  else if order = 12 then some [12, 11, 10, 4]
  else if order = 13 then some [13, 12, 11, 8]
  else if order = 14 then some [14, 13, 12, 2]
  else if order = 15 then some [15, 14]
  else if order = 16 then some [16, 15, 13, 4]
  else if order = 17 then some [17, 14]
  else if order = 18 then some [18, 11]
  else none

/-- One LFSR update of generateMLS: feedback is the XOR of the tap bits
(`feedback ^= (register >> (taps[t]-1)) & 1` folded over the taps), then
`register = (register >> 1) | (feedback << (order - 1))`. -/
def mlsStep (order : ℕ) (taps : List ℕ) (register : ℕ) : ℕ :=
  (register >>> 1) |||
    ((taps.foldl (fun acc t => acc ^^^ ((register >>> (t - 1)) &&& 1)) 0) <<<
      (order - 1))

/-- Register contents before emitting sample `i`: the all-ones initial
state `(1 << order) - 1` advanced `i` times. -/
def mlsRegister (order : ℕ) (taps : List ℕ) (i : ℕ) : ℕ :=
  (mlsStep order taps)^[i] ((1 <<< order) - 1)

/-- Sample emitted at step `i` of one period: `+1.0` when the register's
LSB is set, `-1.0` otherwise. -/
def mlsSample (order : ℕ) (taps : List ℕ) (i : ℕ) : ℝ :=
  if mlsRegister order taps i &&& 1 = 1 then 1 else -1

/-- generateMLS: `repetitions` back-to-back periods of length
`(1 << order) - 1`, each generated from a freshly initialized register;
`none` when the order has no tap-table entry (the source throws). -/
def generateMLS (order repetitions : ℕ) : Option (List ℝ) :=
  (MLS_TAPS order).map fun taps =>
    (List.range repetitions).flatMap fun _ =>
      (List.range ((1 <<< order) - 1)).map fun (i : ℕ) => mlsSample order taps i

/-! ## Stepped-tone frequency list (stepped-sine.js, computeSteppedFrequencies)

Source: `startFreq = Math.max(1, startFreq)`; in the logarithmic branch
`totalSteps = Math.round(log2(endFreq/startFreq) * stepsPerOctave)` and for
`i = 0..totalSteps` the candidate `startFreq * 2^(i/stepsPerOctave)` is kept
when it is `<= endFreq * 1.001`; the linear branch spaces arithmetically. -/

/-- Spacing mode string of the source: logarithmic or linear. -/
inductive Spacing
| logarithmic
| linear

/-- Frequency list of computeSteppedFrequencies.  The `for (i = 0; i <=
totalSteps)` loop is rendered as a pass over `List.range (totalSteps+1)`
(empty when `totalSteps` is negative, as in the source), with the
logarithmic branch's `if (freq <= endFreq * 1.001)` push as a filterMap. -/
noncomputable def computeSteppedFrequencies
    (startFreq endFreq : ℝ) (stepsPerOctave : ℕ) (spacing : Spacing) : List ℝ :=
  let s := max 1 startFreq
  match spacing with
  | Spacing.logarithmic =>
      let totalSteps := jsRound (Real.logb 2 (endFreq / s) * stepsPerOctave)
      (List.range (totalSteps + 1).toNat).filterMap fun (i : ℕ) =>
        if s * (2 : ℝ) ^ ((i : ℝ) / stepsPerOctave) ≤ endFreq * 1.001
        then some (s * (2 : ℝ) ^ ((i : ℝ) / stepsPerOctave)) else none
  | Spacing.linear =>
      let totalSteps := max 1 (jsRound (Real.logb 2 (endFreq / s) * stepsPerOctave))
      (List.range (totalSteps + 1).toNat).map fun (i : ℕ) =>
        s + (i : ℝ) * ((endFreq - s) / (totalSteps : ℝ))

/-! ## Stereo-sync channel construction (worker.js, phase 7)

Source: `linearGain = dBFSToLinear(outputLevel)`; in stereo-sync mode
`syncChannel = new Float64Array(samples.length); syncChannel[leadSamples] =
linearGain; channels = [samples, syncChannel]` — the impulse value is the
linear output gain, not 1.0. -/

/-- dBFSToLinear of utils.js: `Math.pow(10, dBFS / 20)`. -/
noncomputable def dBFSToLinear (dBFS : ℝ) : ℝ := (10 : ℝ) ^ (dBFS / 20)

/-- Zero-filled buffer of the signal's length with `gain` written at index
`leadSamples`, exactly as the worker builds syncChannel. -/
noncomputable def buildSyncChannel (totalLen leadSamples : ℕ) (gain : ℝ) : List ℝ :=
  (List.range totalLen).map fun (i : ℕ) => if i = leadSamples then gain else 0

/-- Channel pair handed to the encoder in stereo-sync mode:
`channels = [samples, syncChannel]`. -/
noncomputable def syncModeChannels (samples : List ℝ) (leadSamples : ℕ) (gain : ℝ) :
    List ℝ × List ℝ :=
  (samples, buildSyncChannel samples.length leadSamples gain)

/-! ## Visualization decimation (utils.js, decimateForVisualization)

Source: `if (samples.length <= maxPoints * 2) return new Float64Array(samples);`
else, with `step = samples.length / maxPoints`, for each `i < maxPoints` the
window is `[Math.floor(i*step), min(Math.floor((i+1)*step), samples.length))`
and the pair (window minimum, window maximum) is emitted.  Values are
modelled over `ℚ` (every Float64 is rational; the routine only compares and
copies).  `Math.floor(i * (N/P))` is the natural-number division `i*N/P`.
The source folds min from `Infinity` and max from `-Infinity`; those
sentinels are observable only for an empty window, which cannot arise in
the else branch, so `windowMin`/`windowMax` fold from the head instead. -/

/-- Minimum of a window as the source's fold computes it for a nonempty
window (the empty case, `Infinity` in the source, is unreachable in the
decimation branch and is mapped to 0). -/
def windowMin (l : List ℚ) : ℚ :=
  match l with
  | [] => 0
  | x :: xs => xs.foldl min x

/-- Maximum of a window, dual to `windowMin`. -/
def windowMax (l : List ℚ) : ℚ :=
  match l with
  | [] => 0
  | x :: xs => xs.foldl max x

/-- The i-th decimation window: samples from `Math.floor(i*step)` up to
`min(Math.floor((i+1)*step), samples.length)` exclusive. -/
def decimateWindow (samples : List ℚ) (maxPoints i : ℕ) : List ℚ :=
  (samples.drop (i * samples.length / maxPoints)).take
    (min ((i + 1) * samples.length / maxPoints) samples.length -
      i * samples.length / maxPoints)

/-- decimateForVisualization of utils.js: copy-through when the input has
at most `2 * maxPoints` samples, otherwise interleaved
[min0, max0, min1, max1, ...] over the `maxPoints` windows. -/
def decimateForVisualization (samples : List ℚ) (maxPoints : ℕ) : List ℚ :=
  if samples.length ≤ maxPoints * 2 then samples
  else
    (List.range maxPoints).flatMap fun (i : ℕ) =>
      [windowMin (decimateWindow samples maxPoints i),
       windowMax (decimateWindow samples maxPoints i)]

/-! ## Fade application (utils.js, applyFades and the window builders)

Source: each pass runs only when its type is not 'none' and its sample
count is positive; the window length is `Math.min(fadeSamples, N)`; the
fade-in multiplies the first `len` samples by the window, the fade-out
multiplies the last `len` samples (`samples[N - len + i] *= win[i]`).  The
window builders return `[1]` for length 1, an empty window for length 0,
and otherwise evaluate their curve with denominator `length - 1`. -/

/-- Fade type strings of the source: 'none', 'hanning', or anything else
(treated as linear by the window selection ternary). -/
inductive FadeType
| none
| hanning
| linear
deriving DecidableEq

/-- halfHanningFadeIn of utils.js. -/
noncomputable def halfHanningFadeIn (length : ℕ) : List ℝ :=
  if length ≤ 1 then (if length = 1 then [1] else [])
  else (List.range length).map fun (n : ℕ) =>
    0.5 * (1 - Real.cos (Real.pi * n / ((length : ℝ) - 1)))

/-- halfHanningFadeOut of utils.js. -/
noncomputable def halfHanningFadeOut (length : ℕ) : List ℝ :=
  if length ≤ 1 then (if length = 1 then [1] else [])
  else (List.range length).map fun (n : ℕ) =>
    0.5 * (1 + Real.cos (Real.pi * n / ((length : ℝ) - 1)))

/-- linearFadeIn of utils.js. -/
noncomputable def linearFadeIn (length : ℕ) : List ℝ :=
  if length ≤ 1 then (if length = 1 then [1] else [])
  else (List.range length).map fun (n : ℕ) => (n : ℝ) / ((length : ℝ) - 1)

/-- linearFadeOut of utils.js. -/
noncomputable def linearFadeOut (length : ℕ) : List ℝ :=
  if length ≤ 1 then (if length = 1 then [1] else [])
  else (List.range length).map fun (n : ℕ) => 1 - (n : ℕ) / ((length : ℝ) - 1)

/-- Window chosen by the fade-in pass:
`fadeInType === 'hanning' ? halfHanningFadeIn(len) : linearFadeIn(len)`. -/
noncomputable def fadeInWindow : FadeType → ℕ → List ℝ
  | FadeType.hanning, len => halfHanningFadeIn len
  | _, len => linearFadeIn len

/-- Window chosen by the fade-out pass, dual to `fadeInWindow`. -/
noncomputable def fadeOutWindow : FadeType → ℕ → List ℝ
  | FadeType.hanning, len => halfHanningFadeOut len
  | _, len => linearFadeOut len

/-- Fade-in pass of applyFades: with `len = min fadeInSamples N`, multiply
sample `i < len` by `win[i]`; skipped when the type is 'none' or the
requested sample count is 0. -/
noncomputable def fadePass1 (samples : List ℝ) (t : FadeType) (a : ℕ) : List ℝ :=
  if t ≠ FadeType.none ∧ 0 < a then
    (List.range samples.length).map fun (i : ℕ) =>
      if i < min a samples.length
      then samples.getD i 0 * (fadeInWindow t (min a samples.length)).getD i 0
      else samples.getD i 0
  else samples

/-- Fade-out pass of applyFades: with `len = min fadeOutSamples N` and
`start = N - len`, multiply sample `start + i` by `win[i]`. -/
noncomputable def fadePass2 (N : ℕ) (s1 : List ℝ) (t : FadeType) (b : ℕ) : List ℝ :=
  if t ≠ FadeType.none ∧ 0 < b then
    (List.range N).map fun (i : ℕ) =>
      if N - min b N ≤ i
      then s1.getD i 0 * (fadeOutWindow t (min b N)).getD (i - (N - min b N)) 0
      else s1.getD i 0
  else s1

/-- applyFades of utils.js: the fade-in pass followed by the fade-out pass,
both using the length captured before any pass runs. -/
noncomputable def applyFades (samples : List ℝ) (fadeInType : FadeType)
    (fadeInSamples : ℕ) (fadeOutType : FadeType) (fadeOutSamples : ℕ) : List ℝ :=
  fadePass2 samples.length (fadePass1 samples fadeInType fadeInSamples)
    fadeOutType fadeOutSamples

theorem clampSample_mem (s : ℝ) : -1 ≤ clampSample s ∧ clampSample s ≤ 1 := by
  unfold clampSample
  constructor
  · exact le_max_left _ _
  · exact max_le (by norm_num) (min_le_left _ _)

/-- C9: for every input sample, the 16-bit PCM encoder emits an integer in
[-32767, 32767]; the sample is clamped to [-1,1] and scaled by 32767 before
rounding, so the code -32768 is never produced. -/
theorem pcm16Value_range (s : ℝ) :
    -32767 ≤ pcm16Value s ∧ pcm16Value s ≤ 32767 ∧
      pcm16Value s = jsRound (clampSample s * 32767) := by
  obtain ⟨hlo, hhi⟩ := clampSample_mem s
  have hlo' : (-32767 : ℝ) ≤ clampSample s * 32767 := by nlinarith
  have hhi' : clampSample s * 32767 ≤ 32767 := by nlinarith
  refine ⟨?_, ?_, rfl⟩
  · unfold pcm16Value jsRound
    rw [Int.le_floor]
    push_cast
    linarith
  · unfold pcm16Value jsRound
    have : clampSample s * 32767 + 1 / 2 < 32768 := by linarith
    have h := Int.floor_le_floor (α := ℝ)
      (a := clampSample s * 32767 + 1 / 2) (b := 32767 + 1 / 2)
      (by linarith)
    have h2 : (⌊(32767 : ℝ) + 1 / 2⌋ : ℤ) = 32767 := by
      rw [Int.floor_eq_iff]
      norm_num
    omega

/-- C2: for every supported encoding request (16/24-bit PCM or 32-bit
float; 1 or 2 channels; with or without metadata), the allocated buffer
size equals 8 plus the RIFF size field, the write sequence fills the buffer
exactly, the sample bytes actually written after the data chunk header
equal the data size field, the fmt payload bytes written equal the fmt size
field, and an odd bext payload is followed by exactly one pad byte (counted
in the totals) while the bext size field stays the unpadded payload size. -/
theorem encodeWAV_chunk_sizes (bitDepth : ℕ) (fmtFloat : Bool)
    (numChannels totalFrames : ℕ) (meta : Option ℕ)
    (hsupp : (bitDepth = 16 ∧ fmtFloat = false) ∨ (bitDepth = 24 ∧ fmtFloat = false) ∨
      (bitDepth = 32 ∧ fmtFloat = true))
    (hch : numChannels = 1 ∨ numChannels = 2) :
    wavFileSize bitDepth fmtFloat numChannels totalFrames meta =
      8 + riffPayloadSize bitDepth fmtFloat numChannels totalFrames meta ∧
    wavBytesWritten bitDepth fmtFloat numChannels totalFrames meta =
      wavFileSize bitDepth fmtFloat numChannels totalFrames meta ∧
    totalFrames * numChannels * sampleValueBytes bitDepth fmtFloat =
      wavDataSize bitDepth numChannels totalFrames ∧
    fmtPayloadBytesWritten (isExtensibleWav bitDepth) = fmtPayloadSize bitDepth ∧
    (∀ ch, meta = some ch →
      bextChunkSize meta = 8 + bextPayloadSize ch + bextPayloadSize ch % 2) := by
  have hdata : totalFrames * numChannels * sampleValueBytes bitDepth fmtFloat =
      wavDataSize bitDepth numChannels totalFrames := by
    rcases hsupp with ⟨hb, hf⟩ | ⟨hb, hf⟩ | ⟨hb, hf⟩ <;>
      subst hb <;> subst hf <;>
      rcases hch with h | h <;> subst h <;>
      simp [sampleValueBytes, wavDataSize, blockAlign, isFloatWav] <;> ring
  have hfmt : fmtPayloadBytesWritten (isExtensibleWav bitDepth) =
      fmtPayloadSize bitDepth := by
    rcases hsupp with ⟨hb, _⟩ | ⟨hb, _⟩ | ⟨hb, _⟩ <;> subst hb <;>
      simp [fmtPayloadBytesWritten, fmtPayloadSize, isExtensibleWav]
  refine ⟨rfl, ?_, hdata, hfmt, ?_⟩
  · unfold wavBytesWritten wavFileSize riffPayloadSize bextChunkSize
      fmtChunkSize factChunkSize
    rw [hfmt, hdata]
    rcases meta with _ | ch <;> simp <;> ring
  · intro ch hm
    subst hm
    show 8 + bextPayloadSize ch + (if bextPayloadSize ch % 2 ≠ 0 then 1 else 0) =
      8 + bextPayloadSize ch + bextPayloadSize ch % 2
    split_ifs with h
    · omega
    · omega

/-- C2 witness: the layout identities instantiated at 24-bit PCM, stereo,
5 frames, with metadata whose codingHistory is 7 bytes (odd payload, so the
pad byte is exercised). -/
theorem encodeWAV_chunk_sizes_witness :
    (((24 : ℕ) = 16 ∧ false = false) ∨ ((24 : ℕ) = 24 ∧ false = false) ∨
      ((24 : ℕ) = 32 ∧ false = true)) ∧
    ((2 : ℕ) = 1 ∨ (2 : ℕ) = 2) ∧
    (wavFileSize 24 false 2 5 (some 7) = 8 + riffPayloadSize 24 false 2 5 (some 7) ∧
     wavBytesWritten 24 false 2 5 (some 7) = wavFileSize 24 false 2 5 (some 7) ∧
     5 * 2 * sampleValueBytes 24 false = wavDataSize 24 2 5 ∧
     fmtPayloadBytesWritten (isExtensibleWav 24) = fmtPayloadSize 24 ∧
     (∀ ch, (some 7 : Option ℕ) = some ch →
       bextChunkSize (some 7) = 8 + bextPayloadSize ch + bextPayloadSize ch % 2)) :=
  ⟨by decide, by decide,
    encodeWAV_chunk_sizes 24 false 2 5 (some 7) (by decide) (by decide)⟩

/-- C5 counterexample: encoding 1 second of 48 kHz mono silence at 16-bit
PCM with no metadata yields a file of 96044 bytes, not 44 bytes as the
claim states. -/
theorem encodeWAV_silence_total_ne_44 :
    wavFileSize 16 false 1 48000 none ≠ 44 := by decide

/-- C5 amended: encoding 1 second of silence (48000 frames), mono, 16-bit
PCM, no metadata, gives a data chunk size field of 96000 bytes and a total
file size of 96044 bytes — a 44-byte standard header (no fact or bext
chunk, plain 16-byte fmt payload) followed by the 96000 data bytes. -/
theorem encodeWAV_silence_scenario :
    wavDataSize 16 1 48000 = 96000 ∧
    wavFileSize 16 false 1 48000 none = 44 + 96000 ∧
    factChunkSize 16 false = 0 ∧
    bextChunkSize none = 0 ∧
    fmtPayloadSize 16 = 16 := by decide

theorem length_generateExponentialSweep (startFreq endFreq sampleRate duration : ℝ) :
    (generateExponentialSweep startFreq endFreq sampleRate duration).length =
      essLength sampleRate duration := by
  unfold generateExponentialSweep
  simp only [List.length_map, List.length_range]

theorem essLength_scenarioA : essLength 48000 1 = 48000 := by
  unfold essLength jsRound
  norm_num
  decide

theorem getElem_generateExponentialSweep (startFreq endFreq sampleRate duration : ℝ)
    (n : ℕ) (hn : n < essLength sampleRate duration) :
    (generateExponentialSweep startFreq endFreq sampleRate duration).get
      ⟨n, by rw [length_generateExponentialSweep]; exact hn⟩ =
    Real.sin (2 * Real.pi * startFreq * duration / Real.log (endFreq / startFreq) *
      (Real.exp ((n : ℝ) / sampleRate / duration * Real.log (endFreq / startFreq)) - 1)) := by
  unfold generateExponentialSweep
  rw [List.get_eq_getElem]
  simp only [List.getElem_map, List.getElem_range]

/-- C1: the ESS request f1 = 20 Hz, f2 = 20000 Hz, T = 1 s, 48000 Hz yields
exactly 48000 samples, sample 0 is exactly 0, and every sample n obeys the
closed-form Farina phase formula. -/
theorem ess_scenarioA :
    (generateExponentialSweep 20 20000 48000 1).length = 48000 ∧
    (∀ h0 : 0 < (generateExponentialSweep 20 20000 48000 1).length,
      (generateExponentialSweep 20 20000 48000 1)[0] = 0) ∧
    (∀ n (hn : n < 48000),
      (generateExponentialSweep 20 20000 48000 1).get
        ⟨n, by rw [length_generateExponentialSweep, essLength_scenarioA]; exact hn⟩ =
      Real.sin (2 * Real.pi * 20 * 1 / Real.log (20000 / 20) *
        (Real.exp ((n : ℝ) / 48000 / 1 * Real.log (20000 / 20)) - 1))) := by
  refine ⟨?_, ?_, ?_⟩
  · rw [length_generateExponentialSweep, essLength_scenarioA]
  · intro h0
    show (generateExponentialSweep 20 20000 48000 1).get ⟨0, h0⟩ = 0
    have h := getElem_generateExponentialSweep 20 20000 48000 1 0
      (by rw [essLength_scenarioA]; norm_num)
    rw [h]
    norm_num
  · intro n hn
    exact getElem_generateExponentialSweep 20 20000 48000 1 n
      (by rw [essLength_scenarioA]; exact hn)

/-- C1 witness: the formula instantiated at the last sample, n = 47999. -/
theorem ess_scenarioA_witness :
    (generateExponentialSweep 20 20000 48000 1).length = 48000 ∧
    (47999 < 48000 ∧
      (generateExponentialSweep 20 20000 48000 1).get
        ⟨47999, by rw [length_generateExponentialSweep, essLength_scenarioA]; norm_num⟩ =
      Real.sin (2 * Real.pi * 20 * 1 / Real.log (20000 / 20) *
        (Real.exp ((47999 : ℝ) / 48000 / 1 * Real.log (20000 / 20)) - 1))) :=
  ⟨ess_scenarioA.1, by norm_num, ess_scenarioA.2.2 47999 (by norm_num)⟩

/-- C7: generateMLS fails (throws Unsupported MLS order, modelled `none`)
exactly for orders outside [10, 18]; within the range it returns a buffer. -/
theorem generateMLS_isSome_iff (order repetitions : ℕ) :
    (generateMLS order repetitions).isSome = true ↔ 10 ≤ order ∧ order ≤ 18 := by
  unfold generateMLS MLS_TAPS
  split_ifs with h1 h2 h3 h4 h5 h6 h7 h8 h9 <;> simp <;> omega

theorem mls_period_facts (order : ℕ) (taps : List ℕ)
    (htaps : MLS_TAPS order = some taps)
    (hlen : 2 ≤ order)
    (hbit0 : mlsRegister order taps 0 &&& 1 = 1)
    (hbitk : mlsRegister order taps order &&& 1 = 0) :
    ∃ buf, generateMLS order 1 = some buf ∧
      buf.length = 2 ^ order - 1 ∧
      (∀ x ∈ buf, x = 1 ∨ x = -1) ∧
      (∃ a ∈ buf, ∃ b ∈ buf, a ≠ b) := by
  have hshift : (1 <<< order) - 1 = 2 ^ order - 1 := by
    rw [Nat.one_shiftLeft]
  have hord : order < 2 ^ order - 1 := by
    have h4 : order + 2 ≤ 2 ^ order := by
      clear htaps hbit0 hbitk
      induction order with
      | zero => omega
      | succ n ih =>
          rcases Nat.lt_or_ge n 2 with h | h
          · interval_cases n <;> simp_all
          · have := ih (by omega)
            have h2 : 2 ^ n ≥ 1 := Nat.one_le_two_pow
            rw [pow_succ]
            omega
    omega
  refine ⟨(List.range 1).flatMap fun _ =>
      (List.range ((1 <<< order) - 1)).map fun (i : ℕ) => mlsSample order taps i,
    ?_, ?_, ?_, ?_⟩
  · unfold generateMLS
    rw [htaps]
    rfl
  · rw [show List.range 1 = [0] from rfl]
    simp [List.flatMap_cons, List.flatMap_nil, List.length_map, hshift]
  · intro x hx
    simp only [List.mem_flatMap, List.mem_map, List.mem_range] at hx
    obtain ⟨a, -, i, -, hi⟩ := hx
    unfold mlsSample at hi
    split_ifs at hi
    · exact Or.inl hi.symm
    · exact Or.inr hi.symm
  · have hmem : ∀ j, j < 2 ^ order - 1 →
        mlsSample order taps j ∈
          (List.range 1).flatMap fun _ =>
            (List.range ((1 <<< order) - 1)).map fun (i : ℕ) => mlsSample order taps i := by
      intro j hj
      simp only [List.mem_flatMap, List.mem_map, List.mem_range]
      exact ⟨0, by simp, j, by omega, rfl⟩
    refine ⟨mlsSample order taps 0, hmem 0 (by omega),
            mlsSample order taps order, hmem order hord, ?_⟩
    unfold mlsSample
    rw [hbit0]
    rw [if_pos rfl, if_neg (by omega)]
    norm_num

/-- C3: for every MLS order k in [10, 18], generateMLS with one repetition
returns a buffer of length exactly 2^k − 1 whose samples are all exactly
+1.0 or −1.0 and which is not constant. -/
theorem generateMLS_length_values_nonconstant (order : ℕ)
    (h10 : 10 ≤ order) (h18 : order ≤ 18) :
    ∃ buf, generateMLS order 1 = some buf ∧
      buf.length = 2 ^ order - 1 ∧
      (∀ x ∈ buf, x = 1 ∨ x = -1) ∧
      (∃ a ∈ buf, ∃ b ∈ buf, a ≠ b) := by
  interval_cases order
  · exact mls_period_facts 10 [10, 7] (by decide) (by decide) (by decide) (by decide)
  · exact mls_period_facts 11 [11, 9] (by decide) (by decide) (by decide) (by decide)
  · exact mls_period_facts 12 [12, 11, 10, 4] (by decide) (by decide) (by decide) (by decide)
  · exact mls_period_facts 13 [13, 12, 11, 8] (by decide) (by decide) (by decide) (by decide)
  · exact mls_period_facts 14 [14, 13, 12, 2] (by decide) (by decide) (by decide) (by decide)
  · exact mls_period_facts 15 [15, 14] (by decide) (by decide) (by decide) (by decide)
  · exact mls_period_facts 16 [16, 15, 13, 4] (by decide) (by decide) (by decide) (by decide)
  · exact mls_period_facts 17 [17, 14] (by decide) (by decide) (by decide) (by decide)
  · exact mls_period_facts 18 [18, 11] (by decide) (by decide) (by decide) (by decide)

/-- C3 witness: the guarantees instantiated at order 10. -/
theorem generateMLS_length_values_nonconstant_witness :
    (10 ≤ 10 ∧ 10 ≤ 18) ∧
    (∃ buf, generateMLS 10 1 = some buf ∧
      buf.length = 2 ^ 10 - 1 ∧
      (∀ x ∈ buf, x = 1 ∨ x = -1) ∧
      (∃ a ∈ buf, ∃ b ∈ buf, a ≠ b)) :=
  ⟨by decide, generateMLS_length_values_nonconstant 10 (by decide) (by decide)⟩

/-- C4 counterexample: for f1 = 100 Hz, f2 = 1000 Hz, 1 step per octave,
logarithmic spacing (list [100, 200, 400, 800]), no element of the derived
frequency list lies within 0.1 percent of the end frequency. -/
theorem stepped_no_element_near_end :
    ¬ ∃ x ∈ computeSteppedFrequencies 100 1000 1 Spacing.logarithmic,
      |x - 1000| ≤ 0.001 * 1000 := by
  rintro ⟨x, hx, hclose⟩
  unfold computeSteppedFrequencies at hx
  simp only [List.mem_filterMap, List.mem_range] at hx
  obtain ⟨i, -, hi⟩ := hx
  have hmax : max (1 : ℝ) 100 = 100 := by norm_num
  rw [hmax] at hi
  split_ifs at hi with hc
  · have hx2 : x = 100 * (2 : ℝ) ^ ((i : ℝ) / (1 : ℕ)) := (Option.some_inj.mp hi).symm
    have hcast : ((i : ℝ) / ((1 : ℕ) : ℝ)) = ((i : ℕ) : ℝ) := by norm_num
    rw [hcast, Real.rpow_natCast] at hx2
    have habs := abs_le.mp hclose
    rcases Nat.lt_or_ge i 4 with h4 | h4
    · have hpow : (2 : ℝ) ^ i ≤ 2 ^ 3 := by
        apply pow_le_pow_right₀ (by norm_num)
        omega
      rw [hx2] at habs
      norm_num at hpow habs
      linarith [habs.1]
    · have hpow : (2 : ℝ) ^ 4 ≤ 2 ^ i := by
        apply pow_le_pow_right₀ (by norm_num) h4
      rw [hx2] at habs
      norm_num at hpow habs
      linarith [habs.2]

/-- C4 amended: for a logarithmic stepped-tone request with
1 ≤ startFreq < endFreq, the derived list starts exactly at the start
frequency and every element is at most 1.001 times the end frequency; the
end frequency itself need not be reached within 0.1 percent (for f1=100,
f2=1000, 1 step/octave the list is [100, 200, 400, 800]). -/
theorem computeSteppedFrequencies_log_endpoints
    (startFreq endFreq : ℝ) (stepsPerOctave : ℕ)
    (h1 : 1 ≤ startFreq) (hlt : startFreq < endFreq) :
    (computeSteppedFrequencies startFreq endFreq stepsPerOctave
        Spacing.logarithmic).head? = some startFreq ∧
    ∀ x ∈ computeSteppedFrequencies startFreq endFreq stepsPerOctave
        Spacing.logarithmic, x ≤ endFreq * 1.001 := by
  have hmax : max 1 startFreq = startFreq := max_eq_right h1
  have hend : (0 : ℝ) < endFreq := by linarith
  have hsle : startFreq ≤ endFreq * 1.001 := by nlinarith
  constructor
  · simp only [computeSteppedFrequencies]
    rw [hmax]
    have hlog : 0 ≤ Real.logb 2 (endFreq / startFreq) * (stepsPerOctave : ℝ) := by
      apply mul_nonneg
      · apply Real.logb_nonneg (by norm_num)
        rw [le_div_iff₀ (by linarith)]
        linarith
      · positivity
    have hround : 0 ≤ jsRound (Real.logb 2 (endFreq / startFreq) * (stepsPerOctave : ℝ)) := by
      unfold jsRound
      have : (0 : ℤ) = ⌊(1 : ℝ) / 2⌋ := by norm_num
      rw [this]
      apply Int.floor_le_floor
      linarith
    have hn : (jsRound (Real.logb 2 (endFreq / startFreq) * (stepsPerOctave : ℝ)) + 1).toNat =
        (jsRound (Real.logb 2 (endFreq / startFreq) * (stepsPerOctave : ℝ))).toNat + 1 := by
      omega
    rw [hn, List.range_succ_eq_map, List.filterMap_cons]
    have h0 : ((0 : ℕ) : ℝ) / (stepsPerOctave : ℝ) = 0 := by norm_num
    rw [h0, Real.rpow_zero, mul_one]
    rw [if_pos hsle]
    rfl
  · intro x hx
    unfold computeSteppedFrequencies at hx
    rw [hmax] at hx
    simp only [List.mem_filterMap, List.mem_range] at hx
    obtain ⟨i, -, hi⟩ := hx
    split_ifs at hi with hc
    · rw [← Option.some_inj.mp hi]
      exact hc

/-- C4 witness: the amended endpoint facts instantiated at f1 = 100,
f2 = 1000, 1 step per octave. -/
theorem computeSteppedFrequencies_log_endpoints_witness :
    ((1 : ℝ) ≤ 100 ∧ (100 : ℝ) < 1000) ∧
    ((computeSteppedFrequencies 100 1000 1 Spacing.logarithmic).head? = some 100 ∧
     ∀ x ∈ computeSteppedFrequencies 100 1000 1 Spacing.logarithmic,
       x ≤ 1000 * 1.001) :=
  ⟨⟨by norm_num, by norm_num⟩,
    computeSteppedFrequencies_log_endpoints 100 1000 1 (by norm_num) (by norm_num)⟩

/-- C6 counterexample: at output level −20 dBFS the sync impulse sample is
the linear gain 10^(−1) = 1/10, not 1.0 (signal [0,0,0], sweep start at
index 1). -/
theorem syncChannel_impulse_not_unit :
    (syncModeChannels [0, 0, 0] 1 (dBFSToLinear (-20))).2.getD 1 0 ≠ 1 := by
  unfold syncModeChannels buildSyncChannel
  have hlen : ([0, 0, 0] : List ℝ).length = 3 := rfl
  rw [hlen]
  rw [show List.range 3 = [0, 1, 2] from rfl]
  simp only [List.map_cons, List.map_nil, List.getD_cons_succ, List.getD_cons_zero,
    if_true, reduceIte]
  unfold dBFSToLinear
  rw [show ((-20 : ℝ) / 20) = ((-1 : ℤ) : ℝ) by norm_num, Real.rpow_intCast]
  norm_num

/-- C6 amended: in stereo-sync mode the first channel is the processed
signal, and the second channel holds a single impulse of value
10^(outputLevel/20) — the linear output gain, equal to 1.0 exactly when
the level is 0 dBFS — at the sweep-start index (the lead-silence offset)
and 0 at every other index. -/
theorem syncChannel_layout (samples : List ℝ) (leadSamples : ℕ) (level : ℝ)
    (hlead : leadSamples < samples.length) :
    (syncModeChannels samples leadSamples (dBFSToLinear level)).1 = samples ∧
    (syncModeChannels samples leadSamples (dBFSToLinear level)).2.length =
      samples.length ∧
    (syncModeChannels samples leadSamples (dBFSToLinear level)).2.getD leadSamples 0 =
      dBFSToLinear level ∧
    (∀ i, i < samples.length → i ≠ leadSamples →
      (syncModeChannels samples leadSamples (dBFSToLinear level)).2.getD i 0 = 0) ∧
    (level = 0 → dBFSToLinear level = 1) := by
  refine ⟨rfl, ?_, ?_, ?_, ?_⟩
  · unfold syncModeChannels buildSyncChannel
    simp
  · unfold syncModeChannels buildSyncChannel
    rw [List.getD_eq_getElem?_getD, List.getElem?_map, List.getElem?_range hlead]
    simp
  · intro i hi hne
    unfold syncModeChannels buildSyncChannel
    rw [List.getD_eq_getElem?_getD, List.getElem?_map, List.getElem?_range hi]
    simp only [Option.map_some', Option.getD_some]
    rw [if_neg hne]
  · intro h0
    rw [h0]
    unfold dBFSToLinear
    norm_num

/-- C6 witness: the amended layout instantiated at signal [5, 6, 7], lead
offset 1, output level −20 dBFS. -/
theorem syncChannel_layout_witness :
    (1 < ([5, 6, 7] : List ℝ).length) ∧
    ((syncModeChannels [5, 6, 7] 1 (dBFSToLinear (-20))).1 = [5, 6, 7] ∧
     (syncModeChannels [5, 6, 7] 1 (dBFSToLinear (-20))).2.length =
       ([5, 6, 7] : List ℝ).length ∧
     (syncModeChannels [5, 6, 7] 1 (dBFSToLinear (-20))).2.getD 1 0 =
       dBFSToLinear (-20) ∧
     (∀ i, i < ([5, 6, 7] : List ℝ).length → i ≠ 1 →
       (syncModeChannels [5, 6, 7] 1 (dBFSToLinear (-20))).2.getD i 0 = 0) ∧
     ((-20 : ℝ) = 0 → dBFSToLinear (-20) = 1)) :=
  ⟨by norm_num, syncChannel_layout [5, 6, 7] 1 (-20) (by norm_num)⟩

theorem foldl_min_le_init {α : Type} [LinearOrder α] (xs : List α) (x : α) :
    xs.foldl min x ≤ x := by
  induction xs generalizing x with
  | nil => exact le_refl x
  | cons a l ih => exact le_trans (ih (min x a)) (min_le_left x a)

theorem foldl_min_le_mem {α : Type} [LinearOrder α] (xs : List α) (x y : α)
    (hy : y ∈ xs) : xs.foldl min x ≤ y := by
  induction xs generalizing x with
  | nil => cases hy
  | cons a l ih =>
      rcases List.mem_cons.mp hy with h | h
      · subst h
        exact le_trans (foldl_min_le_init l (min x y)) (min_le_right x y)
      · exact ih (min x a) h

theorem foldl_min_mem {α : Type} [LinearOrder α] (xs : List α) (x : α) :
    xs.foldl min x = x ∨ xs.foldl min x ∈ xs := by
  induction xs generalizing x with
  | nil => exact Or.inl rfl
  | cons a l ih =>
      rcases ih (min x a) with h | h
      · rcases min_choice x a with hc | hc
        · exact Or.inl (by rw [List.foldl_cons, h, hc])
        · exact Or.inr (by rw [List.foldl_cons, h, hc]; exact List.mem_cons_self a l)
      · exact Or.inr (List.mem_cons_of_mem a h)

theorem foldl_max_init_le {α : Type} [LinearOrder α] (xs : List α) (x : α) :
    x ≤ xs.foldl max x := by
  induction xs generalizing x with
  | nil => exact le_refl x
  | cons a l ih => exact le_trans (le_max_left x a) (ih (max x a))

theorem foldl_max_mem_le {α : Type} [LinearOrder α] (xs : List α) (x y : α)
    (hy : y ∈ xs) : y ≤ xs.foldl max x := by
  induction xs generalizing x with
  | nil => cases hy
  | cons a l ih =>
      rcases List.mem_cons.mp hy with h | h
      · subst h
        exact le_trans (le_max_right x y) (foldl_max_init_le l (max x y))
      · exact ih (max x a) h

theorem foldl_max_mem {α : Type} [LinearOrder α] (xs : List α) (x : α) :
    xs.foldl max x = x ∨ xs.foldl max x ∈ xs := by
  induction xs generalizing x with
  | nil => exact Or.inl rfl
  | cons a l ih =>
      rcases ih (max x a) with h | h
      · rcases max_choice x a with hc | hc
        · exact Or.inl (by rw [List.foldl_cons, h, hc])
        · exact Or.inr (by rw [List.foldl_cons, h, hc]; exact List.mem_cons_self a l)
      · exact Or.inr (List.mem_cons_of_mem a h)

theorem windowMin_spec (l : List ℚ) (hl : l ≠ []) :
    windowMin l ∈ l ∧ ∀ y ∈ l, windowMin l ≤ y := by
  match l with
  | [] => exact absurd rfl hl
  | x :: xs =>
      constructor
      · rcases foldl_min_mem xs x with h | h
        · rw [windowMin, h]; exact List.mem_cons_self x xs
        · rw [windowMin]; exact List.mem_cons_of_mem x h
      · intro y hy
        rcases List.mem_cons.mp hy with h | h
        · rw [windowMin, h]; exact foldl_min_le_init xs x
        · rw [windowMin]; exact foldl_min_le_mem xs x y h

theorem windowMax_spec (l : List ℚ) (hl : l ≠ []) :
    windowMax l ∈ l ∧ ∀ y ∈ l, y ≤ windowMax l := by
  match l with
  | [] => exact absurd rfl hl
  | x :: xs =>
      constructor
      · rcases foldl_max_mem xs x with h | h
        · rw [windowMax, h]; exact List.mem_cons_self x xs
        · rw [windowMax]; exact List.mem_cons_of_mem x h
      · intro y hy
        rcases List.mem_cons.mp hy with h | h
        · rw [windowMax, h]; exact foldl_max_init_le xs x
        · rw [windowMax]; exact foldl_max_mem_le xs x y h

theorem length_pairsFlatMap (P : ℕ) (f g : ℕ → ℚ) :
    ((List.range P).flatMap fun (i : ℕ) => [f i, g i]).length = 2 * P := by
  induction P with
  | zero => rfl
  | succ n ih =>
      rw [List.range_succ, List.flatMap_append, List.length_append, ih]
      simp [List.flatMap_cons]
      omega

theorem getD_pairsFlatMap (P i : ℕ) (f g : ℕ → ℚ) (h : i < P) :
    ((List.range P).flatMap fun (j : ℕ) => [f j, g j]).getD (2 * i) 0 = f i ∧
    ((List.range P).flatMap fun (j : ℕ) => [f j, g j]).getD (2 * i + 1) 0 = g i := by
  induction P with
  | zero => omega
  | succ n ih =>
      rw [List.range_succ, List.flatMap_append]
      have hlen := length_pairsFlatMap n f g
      rcases Nat.lt_or_ge i n with h2 | h2
      · constructor
        · rw [List.getD_append _ _ _ _ (by omega)]
          exact (ih h2).1
        · rw [List.getD_append _ _ _ _ (by omega)]
          exact (ih h2).2
      · have hi : i = n := by omega
        subst hi
        constructor
        · rw [List.getD_append_right _ _ _ _ (by omega)]
          rw [hlen, show 2 * i - 2 * i = 0 from by omega]
          simp [List.flatMap_cons]
        · rw [List.getD_append_right _ _ _ _ (by omega)]
          rw [hlen, show 2 * i + 1 - 2 * i = 1 from by omega]
          simp [List.flatMap_cons]

theorem decimate_stop_eq (samples : List ℚ) (P i : ℕ) (hP : 0 < P) (hi : i < P) :
    min ((i + 1) * samples.length / P) samples.length =
      (i + 1) * samples.length / P := by
  apply min_eq_left
  calc (i + 1) * samples.length / P ≤ P * samples.length / P :=
        Nat.div_le_div_right (Nat.mul_le_mul_right _ (by omega))
    _ = samples.length := Nat.mul_div_cancel_left _ hP

theorem decimate_partition_aux (samples : List ℚ) (P : ℕ) (hP : 0 < P) :
    ∀ k, k ≤ P →
      ((List.range k).flatMap fun (i : ℕ) => decimateWindow samples P i) ++
        samples.drop (k * samples.length / P) = samples := by
  intro k
  induction k with
  | zero => intro _; simp
  | succ n ih =>
      intro h
      have hstart : n * samples.length / P ≤ (n + 1) * samples.length / P :=
        Nat.div_le_div_right (Nat.mul_le_mul_right _ (by omega))
      have hwin : decimateWindow samples P n ++
          samples.drop ((n + 1) * samples.length / P) =
          samples.drop (n * samples.length / P) := by
        unfold decimateWindow
        rw [decimate_stop_eq samples P n hP (by omega)]
        have harith : (n + 1) * samples.length / P =
            n * samples.length / P +
              ((n + 1) * samples.length / P - n * samples.length / P) := by omega
        rw [show samples.drop ((n + 1) * samples.length / P) =
            (samples.drop (n * samples.length / P)).drop
              ((n + 1) * samples.length / P - n * samples.length / P) from by
          rw [List.drop_drop, ← harith]]
        exact List.take_append_drop _ _
      rw [List.range_succ, List.flatMap_append, List.append_assoc]
      simp only [List.flatMap_cons, List.flatMap_nil, List.append_nil]
      rw [hwin]
      exact ih (by omega)

theorem decimate_partition (samples : List ℚ) (P : ℕ) (hP : 0 < P) :
    ((List.range P).flatMap fun (i : ℕ) => decimateWindow samples P i) = samples := by
  have h := decimate_partition_aux samples P hP P (le_refl P)
  rw [Nat.mul_div_cancel_left _ hP] at h
  rw [List.drop_length, List.append_nil] at h
  exact h

theorem decimateWindow_ne_nil (samples : List ℚ) (P i : ℕ)
    (hP : 0 < P) (hN : P * 2 < samples.length) (hi : i < P) :
    decimateWindow samples P i ≠ [] := by
  have hdiv2 : 2 ≤ samples.length / P := by
    rw [Nat.le_div_iff_mul_le hP]
    omega
  have hsup : i * samples.length / P + samples.length / P ≤
      (i + 1) * samples.length / P := by
    rw [Nat.le_div_iff_mul_le hP, Nat.add_mul]
    have h1 : i * samples.length / P * P ≤ i * samples.length :=
      Nat.div_mul_le_self _ _
    have h2 : samples.length / P * P ≤ samples.length :=
      Nat.div_mul_le_self _ _
    have : (i + 1) * samples.length = i * samples.length + samples.length := by ring
    omega
  have hstopN : (i + 1) * samples.length / P ≤ samples.length := by
    calc (i + 1) * samples.length / P ≤ P * samples.length / P :=
          Nat.div_le_div_right (Nat.mul_le_mul_right _ (by omega))
      _ = samples.length := Nat.mul_div_cancel_left _ hP
  apply List.ne_nil_of_length_pos
  unfold decimateWindow
  rw [decimate_stop_eq samples P i hP hi]
  rw [List.length_take, List.length_drop]
  omega

/-- C8 counterexample: for samples [1, 2, 3] and point budget 2 the input
is short (N ≤ 2P), so the source returns the 3 samples unchanged rather
than 2P = 4 min/max values. -/
theorem decimate_short_input_not_pairs :
    (decimateForVisualization [1, 2, 3] 2).length ≠ 2 * 2 := by
  unfold decimateForVisualization
  norm_num

/-- C8 amended: when the input has at most 2·maxPoints samples the source
returns it unchanged; when 0 < maxPoints and 2·maxPoints < N it returns
exactly 2·maxPoints values where, for each i, the windows
[⌊i·N/P⌋, min(⌊(i+1)·N/P⌋, N)) are nonempty and partition the input, entry
2i is the minimum of window i and entry 2i+1 its maximum (the windows have
equal width only when maxPoints divides N). -/
theorem decimateForVisualization_spec (samples : List ℚ) (maxPoints : ℕ) :
    (samples.length ≤ maxPoints * 2 →
      decimateForVisualization samples maxPoints = samples) ∧
    (0 < maxPoints → maxPoints * 2 < samples.length →
      (decimateForVisualization samples maxPoints).length = 2 * maxPoints ∧
      ((List.range maxPoints).flatMap fun (i : ℕ) =>
        decimateWindow samples maxPoints i) = samples ∧
      (∀ i, i < maxPoints →
        decimateWindow samples maxPoints i ≠ [] ∧
        (decimateForVisualization samples maxPoints).getD (2 * i) 0 ∈
          decimateWindow samples maxPoints i ∧
        (decimateForVisualization samples maxPoints).getD (2 * i + 1) 0 ∈
          decimateWindow samples maxPoints i ∧
        (∀ y ∈ decimateWindow samples maxPoints i,
          (decimateForVisualization samples maxPoints).getD (2 * i) 0 ≤ y ∧
          y ≤ (decimateForVisualization samples maxPoints).getD (2 * i + 1) 0))) := by
  constructor
  · intro hle
    unfold decimateForVisualization
    rw [if_pos hle]
  · intro hP hN
    have hbranch : decimateForVisualization samples maxPoints =
        (List.range maxPoints).flatMap fun (i : ℕ) =>
          [windowMin (decimateWindow samples maxPoints i),
           windowMax (decimateWindow samples maxPoints i)] := by
      unfold decimateForVisualization
      rw [if_neg (by omega)]
    refine ⟨?_, decimate_partition samples maxPoints hP, ?_⟩
    · rw [hbranch]
      exact length_pairsFlatMap maxPoints _ _
    · intro i hi
      have hne := decimateWindow_ne_nil samples maxPoints i hP (by omega) hi
      have hpair := getD_pairsFlatMap maxPoints i
        (fun j => windowMin (decimateWindow samples maxPoints j))
        (fun j => windowMax (decimateWindow samples maxPoints j)) hi
      have hmin := windowMin_spec (decimateWindow samples maxPoints i) hne
      have hmax := windowMax_spec (decimateWindow samples maxPoints i) hne
      rw [hbranch]
      refine ⟨hne, ?_, ?_, ?_⟩
      · rw [hpair.1]; exact hmin.1
      · rw [hpair.2]; exact hmax.1
      · intro y hy
        rw [hpair.1, hpair.2]
        exact ⟨hmin.2 y hy, hmax.2 y hy⟩

/-- C8 witness: the amended min/max behavior at samples
[3, 1, 4, 1, 5, 9, 2, 6] with point budget 2 (two windows of width 4),
with the branch hypotheses discharged concretely. -/
theorem decimateForVisualization_spec_witness :
    ((0 : ℕ) < 2 ∧ 2 * 2 < ([3, 1, 4, 1, 5, 9, 2, 6] : List ℚ).length) ∧
    ((decimateForVisualization [3, 1, 4, 1, 5, 9, 2, 6] 2).length = 2 * 2 ∧
      ((List.range 2).flatMap fun (i : ℕ) =>
        decimateWindow [3, 1, 4, 1, 5, 9, 2, 6] 2 i) = [3, 1, 4, 1, 5, 9, 2, 6] ∧
      (∀ i, i < 2 →
        decimateWindow [3, 1, 4, 1, 5, 9, 2, 6] 2 i ≠ [] ∧
        (decimateForVisualization [3, 1, 4, 1, 5, 9, 2, 6] 2).getD (2 * i) 0 ∈
          decimateWindow [3, 1, 4, 1, 5, 9, 2, 6] 2 i ∧
        (decimateForVisualization [3, 1, 4, 1, 5, 9, 2, 6] 2).getD (2 * i + 1) 0 ∈
          decimateWindow [3, 1, 4, 1, 5, 9, 2, 6] 2 i ∧
        (∀ y ∈ decimateWindow [3, 1, 4, 1, 5, 9, 2, 6] 2 i,
          (decimateForVisualization [3, 1, 4, 1, 5, 9, 2, 6] 2).getD (2 * i) 0 ≤ y ∧
          y ≤ (decimateForVisualization [3, 1, 4, 1, 5, 9, 2, 6] 2).getD (2 * i + 1) 0))) :=
  ⟨⟨by norm_num, by norm_num⟩,
    (decimateForVisualization_spec [3, 1, 4, 1, 5, 9, 2, 6] 2).2
      (by norm_num) (by norm_num)⟩

theorem getD_map_range {α : Type} (N i : ℕ) (f : ℕ → α) (d : α) (h : i < N) :
    ((List.range N).map f).getD i d = f i := by
  rw [List.getD_eq_getElem?_getD, List.getElem?_map, List.getElem?_range h]
  rfl

theorem fadePass1_length (samples : List ℝ) (t : FadeType) (a : ℕ) :
    (fadePass1 samples t a).length = samples.length := by
  unfold fadePass1
  split_ifs <;> simp

theorem fadePass2_length (N : ℕ) (s1 : List ℝ) (t : FadeType) (b : ℕ)
    (h : s1.length = N) : (fadePass2 N s1 t b).length = N := by
  unfold fadePass2
  split_ifs <;> simp [h]

theorem fadePass1_clamp (samples : List ℝ) (t : FadeType) (a : ℕ) :
    fadePass1 samples t a = fadePass1 samples t (min a samples.length) := by
  unfold fadePass1
  rcases Nat.eq_zero_or_pos samples.length with hN | hN
  · have hnil : samples = [] := List.eq_nil_of_length_eq_zero hN
    subst hnil
    split_ifs <;> simp
  · have hmin : min (min a samples.length) samples.length = min a samples.length := by
      omega
    rw [hmin]
    by_cases ht : t = FadeType.none
    · subst ht
      simp
    · by_cases ha : 0 < a
      · rw [if_pos ⟨ht, ha⟩, if_pos ⟨ht, by omega⟩]
      · have ha0 : a = 0 := by omega
        subst ha0
        simp

theorem fadePass2_clamp (N : ℕ) (s1 : List ℝ) (t : FadeType) (b : ℕ)
    (hN : 0 < N ∨ b = 0) :
    fadePass2 N s1 t b = fadePass2 N s1 t (min b N) := by
  unfold fadePass2
  have hmin : min (min b N) N = min b N := by omega
  rw [hmin]
  by_cases ht : t = FadeType.none
  · subst ht
    simp
  · by_cases hb : 0 < b
    · have hbN : 0 < min b N := by omega
      rw [if_pos ⟨ht, hb⟩, if_pos ⟨ht, hbN⟩]
    · have hb0 : b = 0 := by omega
      subst hb0
      simp

theorem fadePass1_getD_untouched (samples : List ℝ) (t : FadeType) (a i : ℕ)
    (hi : min a samples.length ≤ i) :
    (fadePass1 samples t a).getD i 0 = samples.getD i 0 := by
  unfold fadePass1
  split_ifs with h
  · rcases Nat.lt_or_ge i samples.length with hlt | hge
    · rw [getD_map_range _ _ _ _ hlt, if_neg (by omega)]
    · rw [List.getD_eq_default _ _ (by simpa using hge),
        List.getD_eq_default _ _ hge]
  · rfl

theorem fadePass2_getD_untouched (N : ℕ) (s1 : List ℝ) (t : FadeType) (b i : ℕ)
    (hi : i + min b N < N) :
    (fadePass2 N s1 t b).getD i 0 = s1.getD i 0 := by
  unfold fadePass2
  split_ifs with h
  · rw [getD_map_range _ _ _ _ (by omega), if_neg (by omega)]
  · rfl

/-- C10: applyFades is total for every fade-length combination: the output
has the input length, an overlong fade length behaves exactly as the
clamped length min(length, N) (so a fade longer than the signal spans the
whole buffer and no index outside it is touched), and samples outside the
first min(fadeIn, N) and last min(fadeOut, N) positions are unchanged. -/
theorem applyFades_spec (samples : List ℝ) (tIn : FadeType) (a : ℕ)
    (tOut : FadeType) (b : ℕ) :
    (applyFades samples tIn a tOut b).length = samples.length ∧
    applyFades samples tIn a tOut b =
      applyFades samples tIn (min a samples.length) tOut (min b samples.length) ∧
    (∀ i, min a samples.length ≤ i → i + min b samples.length < samples.length →
      (applyFades samples tIn a tOut b).getD i 0 = samples.getD i 0) := by
  refine ⟨?_, ?_, ?_⟩
  · exact fadePass2_length _ _ _ _ (fadePass1_length samples tIn a)
  · unfold applyFades
    rw [← fadePass1_clamp]
    rcases Nat.eq_zero_or_pos samples.length with hN | hN
    · have hs1nil : fadePass1 samples tIn a = [] :=
        List.eq_nil_of_length_eq_zero (by rw [fadePass1_length]; exact hN)
      rw [hN, hs1nil]
      unfold fadePass2
      split_ifs <;> simp
    · exact fadePass2_clamp _ _ _ _ (Or.inl hN)
  · intro i h1 h2
    unfold applyFades
    rw [fadePass2_getD_untouched _ _ _ _ _ h2]
    exact fadePass1_getD_untouched samples tIn a i h1

/-- C10 witness: the fade facts at signal [1, 2, 3, 4], linear 1-sample
fade-in, linear 1-sample fade-out, middle index 2 untouched. -/
theorem applyFades_spec_witness :
    ((applyFades [1, 2, 3, 4] FadeType.linear 1 FadeType.linear 1).length =
      ([1, 2, 3, 4] : List ℝ).length) ∧
    (applyFades [1, 2, 3, 4] FadeType.linear 1 FadeType.linear 1 =
      applyFades [1, 2, 3, 4] FadeType.linear (min 1 ([1, 2, 3, 4] : List ℝ).length)
        FadeType.linear (min 1 ([1, 2, 3, 4] : List ℝ).length)) ∧
    ((applyFades [1, 2, 3, 4] FadeType.linear 1 FadeType.linear 1).getD 2 0 =
      ([1, 2, 3, 4] : List ℝ).getD 2 0) :=
  ⟨(applyFades_spec [1, 2, 3, 4] FadeType.linear 1 FadeType.linear 1).1,
   (applyFades_spec [1, 2, 3, 4] FadeType.linear 1 FadeType.linear 1).2.1,
   (applyFades_spec [1, 2, 3, 4] FadeType.linear 1 FadeType.linear 1).2.2 2
     (by norm_num) (by norm_num)⟩

end Sweep
